import Mathlib

/-!
Shallow embedding of `src/cache.cpp` (single-level cache engine with
pseudo-LRU replacement, victim cache, next-line prefetching and
write-back), together with proofs settling the frozen claims about it.

Modelling conventions:
* `uint32_t` addresses and masks are `Nat` with explicit reduction
  `% 2^32` where the C++ arithmetic wraps; the 30-bit tag bitfield of
  `CacheBlock` stores `tag % 2^30`.
* The mutable `Cache` object is split into the immutable configuration
  (`Cache`) and the mutable contents (`CacheState`).
* The mutual recursion `accessCache` / `prefetchNextLine` is embedded
  with a fuel parameter: `accessCache c fuel s a w = none` means the
  call did not complete within `fuel` nested invocations, so the C++
  call terminates on an input iff some fuel yields `some`.
* The diagnostic "Writing back dirty block" output is modelled as an
  `events` list recording the tags of emitted write-back obligations.
-/

namespace MLCache

/-- Address space of `uint32_t`: 2^32. -/
def addrMod : Nat := 4294967296

/-- Capacity of the 30-bit `tag` bitfield of `CacheBlock`: 2^30. -/
def tagMod : Nat := 1073741824

/-- Bounded helper for `__builtin_ctz` on a 32-bit value: counts trailing
zero bits, recursing at most `fuel` times. -/
def ctzGo : Nat → Nat → Nat
  | 0, _ => 0
  | fuel + 1, n => if n % 2 = 1 then 0 else ctzGo fuel (n / 2) + 1

/-- Model of `__builtin_ctz` for the 32-bit values the constructor feeds it
(on `0` the C++ builtin is undefined; the model then returns 32). -/
def ctz (n : Nat) : Nat := ctzGo 32 n

/-- Model of `struct CacheBlock`: `valid`/`dirty` bits and the 30-bit `tag`
bitfield. The `int data` placeholder payload is never read or written by
the simulation and is omitted. -/
structure CacheBlock where
  valid : Bool
  dirty : Bool
  tag : Nat
deriving DecidableEq

/-- Cache blocks as default-constructed and then invalidated by the
`Cache` constructor loop (`valid = false`, `dirty = false`). -/
def invalidBlock : CacheBlock := { valid := false, dirty := false, tag := 0 }

/-- Immutable part of `class Cache`: the constructor parameters and the
fields derived from them in the member-initialiser list. -/
structure Cache where
  cacheSize : Nat
  blockSize : Nat
  numSets : Nat
  ways : Nat
  victimCacheSize : Nat
  setMask : Nat
  tagMask : Nat
deriving DecidableEq

/-- Model of the constructor `Cache(size, block, assoc, victimSize)`:
`numSets = (size / block) / assoc`,
`setMask = (1 << ctz(numSets)) - 1`,
`tagMask = ~((1 << (ctz(numSets) + ctz(block))) - 1)` where `~` is 32-bit
complement, i.e. `(2^32 - 1) - x`. There is no validation and no error
path: every parameter combination produces a `Cache`, exactly as in the
source. -/
def Cache.build (size block assoc victimSize : Nat) : Cache :=
  let ns := (size / block) / assoc
  { cacheSize := size
    blockSize := block
    numSets := ns
    ways := assoc
    victimCacheSize := victimSize
    setMask := (1 <<< ctz ns) - 1
    tagMask := (addrMod - 1) - ((1 <<< (ctz ns + ctz block)) - 1) }

/-- Mutable contents of a `Cache` object: `sets` (numSets rows of ways
blocks), `pseudoLRU` counters, the `victimCache` queue (head = front),
and the write-back event log (tags, oldest first). -/
structure CacheState where
  sets : List (List CacheBlock)
  pseudoLRU : List (List Nat)
  victimCache : List CacheBlock
  events : List Nat
deriving DecidableEq

/-- State established by the `Cache` constructor: all blocks invalid, all
pseudo-LRU counters zero, empty victim cache. -/
def initState (c : Cache) : CacheState :=
  { sets := List.replicate c.numSets (List.replicate c.ways invalidBlock)
    pseudoLRU := List.replicate c.numSets (List.replicate c.ways 0)
    victimCache := []
    events := [] }

/-- Write `sets[index][way] = b` (no-op when an index is out of range,
which the C++ never does on the defined-behaviour paths). -/
def setBlock (s : CacheState) (index way : Nat) (b : CacheBlock) : CacheState :=
  { s with sets := s.sets.set index ((s.sets.getD index []).set way b) }

/-- Model of `getPseudoLRU(setIndex)`: index of the first counter equal to
0; like `find(...) - begin()` it is the row length when no counter is 0. -/
def getPseudoLRU (row : List Nat) : Nat :=
  row.findIdx (fun x => x == 0)

/-- Body of the `updatePseudoLRU` loop from position `i` on: each counter
becomes 0 at the used way and `min(255, c + 1)` elsewhere. -/
def updateFrom (i usedWay : Nat) : List Nat → List Nat
  | [] => []
  | x :: rest => (if i = usedWay then 0 else min 255 (x + 1)) :: updateFrom (i + 1) usedWay rest

/-- Model of `updatePseudoLRU(setIndex, usedWay)` applied to one row. -/
def updatePseudoLRU (row : List Nat) (usedWay : Nat) : List Nat :=
  updateFrom 0 usedWay row

/-- Replace the pseudo-LRU row of `index` by its update at `usedWay`. -/
def updateLRUState (s : CacheState) (index usedWay : Nat) : CacheState :=
  { s with pseudoLRU := s.pseudoLRU.set index (updatePseudoLRU (s.pseudoLRU.getD index []) usedWay) }

/-- Model of `predictWay(setIndex, tag)` on the set row: the first way
holding a valid block with the given tag, defaulting to way 0. -/
def predictWay (row : List CacheBlock) (tag : Nat) : Nat :=
  match row.findIdx? (fun b => b.valid && b.tag == tag) with
  | some i => i
  | none => 0

/-- Loop of `checkVictimCache`: scan `count` entries; each one is popped
and pushed back, and a tag match stops the scan with `true` (the matched
block is pushed back as well, ending up at the rear of the queue). -/
def checkVictimCacheGo : Nat → List CacheBlock → Nat → Bool × List CacheBlock
  | 0, q, _ => (false, q)
  | count + 1, q, tag =>
    match q with
    | [] => (false, [])
    | b :: rest =>
      if b.tag == tag then (true, rest ++ [b])
      else checkVictimCacheGo count (rest ++ [b]) tag

/-- Model of `checkVictimCache(tag)`: returns the found flag and the queue
as left behind by the rotation. -/
def checkVictimCache (q : List CacheBlock) (tag : Nat) : Bool × List CacheBlock :=
  checkVictimCacheGo q.length q tag

/-- Model of `addToVictimCache(block)`: drop the oldest entry when the
queue is at capacity, then append. -/
def addToVictimCache (victimCacheSize : Nat) (q : List CacheBlock) (b : CacheBlock) : List CacheBlock :=
  (if victimCacheSize ≤ q.length then q.drop 1 else q) ++ [b]

/-- Model of `writeBack(block)` applied to `sets[index][way]`: emit the
write-back event for its tag and clear the dirty bit in place. -/
def writeBack (s : CacheState) (index way : Nat) : CacheState :=
  let b := (s.sets.getD index []).getD way invalidBlock
  let s2 := setBlock s index way { b with dirty := false }
  { s2 with events := s2.events ++ [b.tag] }

/-- Set-index extraction of `accessCache`/`prefetchNextLine`:
`(address >> ctz(blockSize)) & setMask`. -/
def decodeIndex (c : Cache) (address : Nat) : Nat :=
  (address >>> ctz c.blockSize) &&& c.setMask

/-- Tag extraction of `accessCache`/`prefetchNextLine`:
`address & tagMask`. -/
def decodeTag (c : Cache) (address : Nat) : Nat :=
  address &&& c.tagMask

/-- Hit test of `accessCache`: the predicted way holds a valid block whose
(30-bit) stored tag equals the computed tag. -/
def storeHitB (c : Cache) (s : CacheState) (address : Nat) : Bool :=
  let index := decodeIndex c address
  let tag := decodeTag c address
  let row := s.sets.getD index []
  let pb := row.getD (predictWay row tag) invalidBlock
  pb.valid && pb.tag == tag

/-- Residency scan of `prefetchNextLine`: some way of the target set holds
a valid block with the computed tag. -/
def residentB (c : Cache) (s : CacheState) (address : Nat) : Bool :=
  let row := s.sets.getD (decodeIndex c address) []
  row.any (fun b => b.valid && b.tag == decodeTag c address)

/-- State change of the `accessCache` hit path before the prefetch: mark
the predicted way dirty on a write, then update the pseudo-LRU row. -/
def hitUpdateState (c : Cache) (s : CacheState) (address : Nat) (isWrite : Bool) : CacheState :=
  let index := decodeIndex c address
  let tag := decodeTag c address
  let row := s.sets.getD index []
  let pw := predictWay row tag
  let pb := row.getD pw invalidBlock
  let s2 := if isWrite then setBlock s index pw { pb with dirty := true } else s
  updateLRUState s2 index pw

/-- Model of `insertBlockToCache(index, block, isWrite)`: overwrite the
way chosen by `getPseudoLRU` (with the dirty bit forced to `isWrite`) and
update the pseudo-LRU row. Note that it inspects neither the validity nor
the dirtiness of the block it overwrites. -/
def insertBlockToCache (c : Cache) (s : CacheState) (index : Nat) (block : CacheBlock) (isWrite : Bool) : CacheState :=
  let replaceWay := getPseudoLRU (s.pseudoLRU.getD index [])
  let s2 := setBlock s index replaceWay { block with dirty := isWrite }
  updateLRUState s2 index replaceWay

/-- State change of the `accessCache` victim-hit path, applied to the
state whose victim queue is the rotated queue left by `checkVictimCache`:
`insertBlockToCache(index, victimCache.front(), isWrite)` followed by
`victimCache.pop()`. -/
def victimFillState (c : Cache) (s : CacheState) (index : Nat) (isWrite : Bool) : CacheState :=
  let front := s.victimCache.headD invalidBlock
  let s2 := insertBlockToCache c s index front isWrite
  { s2 with victimCache := s2.victimCache.drop 1 }

/-- State change of the `accessCache` true-miss path before the prefetch,
applied to the state whose victim queue is the (restored) queue left by
`checkVictimCache`: optional write-back of a valid dirty victim, optional
move of a valid victim into the victim cache, fill of the new block
(storing the tag truncated to the 30-bit field), pseudo-LRU update. -/
def missFillState (c : Cache) (s : CacheState) (address : Nat) (isWrite : Bool) : CacheState :=
  let index := decodeIndex c address
  let tag := decodeTag c address
  let replaceWay := getPseudoLRU (s.pseudoLRU.getD index [])
  let b0 := (s.sets.getD index []).getD replaceWay invalidBlock
  let s2 := if b0.valid && b0.dirty then writeBack s index replaceWay else s
  let b1 := (s2.sets.getD index []).getD replaceWay invalidBlock
  let s3 := if b1.valid then { s2 with victimCache := addToVictimCache c.victimCacheSize s2.victimCache b1 } else s2
  let s4 := setBlock s3 index replaceWay { valid := true, dirty := isWrite, tag := tag % tagMod }
  updateLRUState s4 index replaceWay

/-- Body of `prefetchNextLine(address)`, parameterised by the recursive
entry point: compute `address + blockSize` (32-bit wrap), and when the
next line is not resident issue a read access for it, keeping only the
state (`none` propagates exhaustion of the fuel). -/
def prefetchNextLineAux (c : Cache) (recurse : CacheState → Nat → Bool → Option (CacheState × Bool)) (s : CacheState) (address : Nat) : Option CacheState :=
  let nextAddress := (address + c.blockSize) % addrMod
  if residentB c s nextAddress then some s
  else (recurse s nextAddress false).map Prod.fst

/-- Body of `accessCache(address, isWrite)`, parameterised by the
recursive entry point used by the prefetch: hit path (with prefetch),
victim-cache path (no prefetch), true-miss path (with prefetch). -/
def accessCacheAux (c : Cache) (recurse : CacheState → Nat → Bool → Option (CacheState × Bool)) (s : CacheState) (address : Nat) (isWrite : Bool) : Option (CacheState × Bool) :=
  if storeHitB c s address then
    (prefetchNextLineAux c recurse (hitUpdateState c s address isWrite) address).map (fun s2 => (s2, true))
  else
    let scan := checkVictimCache s.victimCache (decodeTag c address)
    if scan.1 then
      some (victimFillState c { s with victimCache := scan.2 } (decodeIndex c address) isWrite, true)
    else
      (prefetchNextLineAux c recurse (missFillState c { s with victimCache := scan.2 } address isWrite) address).map (fun s2 => (s2, false))

/-- Fuel-indexed model of `bool accessCache(uint32_t, bool)`: `none` when
the nested prefetch recursion exceeds the fuel, otherwise the final state
and the hit flag. The C++ call terminates iff some fuel returns `some`. -/
def accessCache (c : Cache) : Nat → CacheState → Nat → Bool → Option (CacheState × Bool)
  | 0, _, _, _ => none
  | n + 1, s, address, isWrite =>
    accessCacheAux c (fun s2 a2 w2 => accessCache c n s2 a2 w2) s address isWrite

/-- Fuel-indexed model of `void prefetchNextLine(uint32_t)`, with `n` the
fuel available to the access it may issue. -/
def prefetchNextLine (c : Cache) (n : Nat) (s : CacheState) (address : Nat) : Option CacheState :=
  prefetchNextLineAux c (fun s2 a2 w2 => accessCache c n s2 a2 w2) s address

/-- States reachable from the constructor state by completed
`accessCache` calls. -/
inductive Reach (c : Cache) : CacheState → Prop
  | init : Reach c (initState c)
  | step (s : CacheState) (n a : Nat) (w : Bool) (p : CacheState × Bool) :
      Reach c s → accessCache c n s a w = some p → Reach c p.1

/-- Degenerate one-set one-way one-block configuration `Cache(1,1,1,1)`
(numSets = 1, setMask = 0, tagMask = 2^32 - 1): used to exhibit the
unbounded prefetch cascade. -/
def cfgA : Cache := Cache.build 1 1 1 1

/-- Configuration `Cache(4,1,2,1)`: 2 sets, 2 ways, block size 1, victim
capacity 1. -/
def cfgB : Cache := Cache.build 4 1 2 1

/-- Configuration `Cache(1,1,1,2)`: 1 set, 1 way, victim capacity 2. -/
def cfgC1 : Cache := Cache.build 1 1 1 2

/-- Configuration `Cache(2,1,1,1)`: 2 sets, 1 way, block size 1, victim
capacity 1. -/
def cfgD : Cache := Cache.build 2 1 1 1

/-- Fixture for C1: the way holds an unrelated tag-4 line and the victim
buffer holds two clean entries, tag 0 (front) and tag 2 (rear). -/
def sC1 : CacheState := ⟨[[⟨true, false, 4⟩]], [[0]], [⟨true, false, 0⟩, ⟨true, false, 2⟩], []⟩

/-- Fixture for C2: the single way holds a valid dirty tag-4 line and the
victim buffer holds a clean tag-0 entry. -/
def sC2 : CacheState := ⟨[[⟨true, true, 4⟩]], [[0]], [⟨true, false, 0⟩], []⟩

/-- Fixture for C4: both sets invalid, victim buffer holding a clean
tag-0 entry. -/
def sC4 : CacheState := ⟨[[invalidBlock], [invalidBlock]], [[0], [0]], [⟨true, false, 0⟩], []⟩

/-- State left by the C4 access: set 0 filled from the victim buffer,
set 1 untouched. -/
def sC4post : CacheState := ⟨[[⟨true, false, 0⟩], [invalidBlock]], [[0], [0]], [], []⟩

/-- Fixture for C6: address 0's line is resident in set 0; set 1 holds a
tag-6 line and, in way 1, the tag-4 line that eventually stops the
prefetch cascade. -/
def sC6 : CacheState := ⟨[[⟨true, false, 0⟩, invalidBlock], [⟨true, false, 6⟩, ⟨true, false, 4⟩]], [[0, 1], [0, 1]], [], []⟩

/-- Fixture for C6's amended claim: lines for address 0 and address 1
both resident, so an access to 0 hits and its prefetch stops at once. -/
def sC6res : CacheState := ⟨[[⟨true, false, 0⟩, invalidBlock], [⟨true, false, 0⟩, invalidBlock]], [[0, 1], [0, 1]], [], []⟩

/-- Fixture for C8: set 0 holds address 4's line (tag 4), set 1 holds
address 1's line (tag 0); the victim buffer is empty. -/
def sC8 : CacheState := ⟨[[⟨true, false, 4⟩], [⟨true, false, 0⟩]], [[0], [0]], [], []⟩

/-- State after accessing address 3 in `sC8`: address 1's line (tag 0)
has been evicted from set 1 into the victim buffer. -/
def sC8mid : CacheState := ⟨[[⟨true, false, 4⟩], [⟨true, false, 2⟩]], [[0], [0]], [⟨true, false, 0⟩], []⟩

/-- Predecessor of an address in the 2^32 address ring. -/
def prevAddr (v : Nat) : Nat := (v + (addrMod - 1)) % addrMod

/-- State reached by the prefetch cascade of `cfgA` when it is about to
access address `v`: the single way holds the line of `v - 1` and the
victim buffer holds the line of `v - 2` (tags stored mod 2^30). -/
def cascState (v : Nat) : CacheState :=
  ⟨[[⟨true, false, prevAddr v % tagMod⟩]], [[0]],
   [⟨true, false, prevAddr (prevAddr v) % tagMod⟩], []⟩

/-- State of `cfgA` after the initial fill of address 0, upon entering
the first prefetch access (address 1). -/
def tau1 : CacheState := ⟨[[⟨true, false, 0⟩]], [[0]], [], []⟩

/-- Row invariant of reachable states: no way other than way 0 ever
holds a valid block (a consequence of `getPseudoLRU` always returning
the most recently reset counter, which is way 0 from the start). -/
def RowInv (row : List CacheBlock) : Prop := ∀ b ∈ row.drop 1, b.valid = false

/-- Pseudo-LRU row invariant of reachable states: the way-0 counter is 0
(vacuously for an empty row). -/
def LRUInv (lrow : List Nat) : Prop := lrow.headD 0 = 0

/-- Combined invariant preserved by `accessCache`. -/
def Inv (s : CacheState) : Prop :=
  (∀ row ∈ s.sets, RowInv row) ∧ (∀ lrow ∈ s.pseudoLRU, LRUInv lrow)

/-- Tag uniqueness: no two distinct ways of one set hold valid blocks
with the same stored tag. -/
def Uniq (s : CacheState) : Prop :=
  ∀ row ∈ s.sets, ∀ i j : Nat, i ≠ j →
    (row.getD i invalidBlock).valid = true →
    (row.getD j invalidBlock).valid = true →
    (row.getD i invalidBlock).tag ≠ (row.getD j invalidBlock).tag

/-- Claim C1. The claim says a victim-buffer hit removes exactly the matching
entry and inserts that same entry into the set. The code violates it:
with buffer `[tag 0, tag 2]` and an access whose tag is 0,
`checkVictimCache` rotates the matched front entry to the rear, after
which `accessCache` inserts and pops the new front — the unrelated tag-2
entry. The result here shows the hit returns `true`, the line inserted
into the set carries tag 2 (not the matched tag 0), the matched tag-0
entry is still in the victim buffer, and the tag-2 entry is gone. -/
theorem C1_victim_lookup_divergence :
    decodeTag cfgC1 0 = 0
    ∧ sC1.victimCache = [⟨true, false, 0⟩, ⟨true, false, 2⟩]
    ∧ accessCache cfgC1 1 sC1 0 false =
        some (⟨[[⟨true, false, 2⟩]], [[0]], [⟨true, false, 0⟩], []⟩, true) := by
  decide

/-- Claim C2. The claim says every displacement of a valid dirty line — on the
true-miss fill path or on the victim-buffer-hit fill path — emits exactly
one write-back event first. On the victim-buffer-hit fill path the code
calls `insertBlockToCache`, which overwrites the chosen way without
checking its dirty bit: here the valid dirty tag-4 line is displaced, the
final event log is still empty (no write-back was emitted), and the line
is gone from the store. -/
theorem C2_silent_dirty_discard :
    ((sC2.sets.getD 0 []).getD 0 invalidBlock).valid = true
    ∧ ((sC2.sets.getD 0 []).getD 0 invalidBlock).dirty = true
    ∧ accessCache cfgC1 1 sC2 0 false =
        some (⟨[[⟨true, false, 0⟩]], [[0]], [], []⟩, true) := by
  decide

/-- Claim C4 counterexample. The claim says every access that returns a hit —
including a victim-buffer hit — triggers the prefetch step. Here the
access to address 0 is satisfied by the victim buffer and returns with
fuel 1, set 1 (the target set of the next line, address 1) is left
exactly as it was, and the next line is not resident afterwards. Had the
prefetch step run, the recursive access would have consumed fuel (forcing
`none` at fuel 1) and could not have left set 1 untouched; the
victim-hit path of `accessCache` returns before `prefetchNextLine`. -/
theorem C4_victim_hit_no_prefetch :
    accessCache cfgD 1 sC4 0 false = some (sC4post, true)
    ∧ sC4post.sets.getD 1 [] = [invalidBlock]
    ∧ residentB cfgD sC4post ((0 + cfgD.blockSize) % addrMod) = false := by
  decide

/-- Claim C6 counterexample. The claim says that after `accessCache(a)`
completes, an immediately following `accessCache(a)` with nothing in
between returns hit. In `sC6` address 0's line is resident, so the first
call hits — but its own prefetch cascade (addresses 1, 2, 3, 4) wraps
back into set 0 and evicts address 0's line, and the cascading evictions
push it out of the one-entry victim buffer as well. The immediately
following call therefore misses: the pair of results is (hit, miss). -/
theorem C6_self_eviction_miss :
    (accessCache cfgB 10 sC6 0 false).bind
      (fun p => (accessCache cfgB 10 p.1 0 false).map (fun q => (p.2, q.2)))
      = some (true, false) := by
  decide

/-- Claim C7. The claim says construction with a non-power-of-two `blockSize`
or derived `numSets` fails fast with a configuration error. The
constructor has no validation or error path: `Cache(96, 16, 1, 1)`
derives `numSets = 6` (not a power of two) and silently builds the cache
with `setMask = 1`, so the set index of address 32 comes out as 0 where
the intended modular decomposition gives set 2 — exactly the silent
wrong set indices the claim says are prevented. -/
theorem C7_silent_construction :
    (Cache.build 96 16 1 1).numSets = 6
    ∧ (¬ ∃ k, k < 32 ∧ (Cache.build 96 16 1 1).numSets = 2 ^ k)
    ∧ (Cache.build 96 16 1 1).setMask = 1
    ∧ decodeIndex (Cache.build 96 16 1 1) 32 = 0
    ∧ (32 >>> 4) % (Cache.build 96 16 1 1).numSets = 2 := by
  decide

/-- Claim C8. Victim-buffer lookup compares only the tag, which excludes the
set-index bits. With `cfgD` (2 sets, block size 1) the distinct addresses
A = 0 and B = 1 have equal tags (0) but different set indices (0 and 1).
Starting from `sC8`, where B's line is resident and nothing matching A
exists anywhere, an access to address 3 evicts B's line into the victim
buffer; the following `accessCache(0)` finds no valid matching line in
set 0 (`storeHitB` is false) yet returns hit, sourced from B's entry in
the victim buffer — although address A was never accessed. -/
theorem C8_cross_set_victim_hit :
    (0 : Nat) ≠ 1
    ∧ decodeTag cfgD 0 = decodeTag cfgD 1
    ∧ decodeIndex cfgD 0 ≠ decodeIndex cfgD 1
    ∧ storeHitB cfgD sC8 0 = false
    ∧ accessCache cfgD 2 sC8 3 false = some (sC8mid, false)
    ∧ sC8mid.victimCache = [⟨true, false, 0⟩]
    ∧ storeHitB cfgD sC8mid 0 = false
    ∧ (accessCache cfgD 1 sC8mid 0 false).map Prod.snd = some true := by
  decide


theorem updateFrom_length (l : List Nat) : ∀ i w, (updateFrom i w l).length = l.length := by
  induction l with
  | nil => intro i w; rfl
  | cons x rest ih => intro i w; simp [updateFrom, ih]

theorem count_updateFrom_below (l : List Nat) : ∀ i w, w < i → (updateFrom i w l).count 0 = 0 := by
  induction l with
  | nil => intro i w _; rfl
  | cons x rest ih =>
    intro i w hw
    have hne : i ≠ w := by omega
    have hmin : ¬ (min 255 (x + 1) = 0) := by
      have : 0 < min 255 (x + 1) := lt_min (by norm_num) (Nat.succ_pos x)
      omega
    simp [updateFrom, hne, List.count_cons, hmin, ih (i + 1) w (by omega)]

theorem count_updateFrom (l : List Nat) : ∀ i w, i ≤ w → w < i + l.length → (updateFrom i w l).count 0 = 1 := by
  induction l with
  | nil => intro i w h1 h2; simp at h2; omega
  | cons x rest ih =>
    intro i w h1 h2
    by_cases hiw : i = w
    · subst hiw
      simp [updateFrom, List.count_cons, count_updateFrom_below rest (i + 1) i (by omega)]
    · have hmin : ¬ (min 255 (x + 1) = 0) := by
        have : 0 < min 255 (x + 1) := lt_min (by norm_num) (Nat.succ_pos x)
        omega
      have : (updateFrom (i + 1) w rest).count 0 = 1 := by
        apply ih <;> simp at h2 <;> omega
      simp [updateFrom, hiw, List.count_cons, hmin, this]

theorem getPseudoLRU_lt (l : List Nat) (h : 0 ∈ l) : getPseudoLRU l < l.length := by
  induction l with
  | nil => simp at h
  | cons x rest ih =>
    by_cases hx : x = 0
    · have hb : (x == 0) = true := by simp [hx]
      simp [getPseudoLRU, List.findIdx_cons, hb]
    · have hb : (x == 0) = false := by simp [hx]
      have hr : 0 ∈ rest := by
        rcases List.mem_cons.mp h with h2 | h2
        · omega
        · exact h2
      have hlt := ih hr
      show List.findIdx (fun y => y == 0) (x :: rest) < rest.length + 1
      rw [List.findIdx_cons, hb]
      show rest.findIdx (fun y => y == 0) + 1 < rest.length + 1
      have hlt2 : rest.findIdx (fun y => y == 0) < rest.length := hlt
      omega

theorem foldl_updatePseudoLRU (ws : List Nat) : ∀ l : List Nat, ws ≠ [] → (∀ w ∈ ws, w < l.length) →
    (ws.foldl updatePseudoLRU l).count 0 = 1 ∧ (ws.foldl updatePseudoLRU l).length = l.length := by
  induction ws with
  | nil => intro l h _; exact absurd rfl h
  | cons w rest ih =>
    intro l _ hlt
    have hw : w < l.length := hlt w (List.mem_cons_self w rest)
    have hlen : (updatePseudoLRU l w).length = l.length := updateFrom_length l 0 w
    cases rest with
    | nil =>
      refine ⟨?_, by simpa [List.foldl] using hlen⟩
      show (updatePseudoLRU l w).count 0 = 1
      exact count_updateFrom l 0 w (by omega) (by omega)
    | cons w2 rest2 =>
      have step := ih (updatePseudoLRU l w) (by simp)
        (by intro u hu; rw [hlen]; exact hlt u (List.mem_cons_of_mem w hu))
      simpa [List.foldl_cons, hlen] using step

theorem updateFrom_getD (l : List Nat) : ∀ i0 j w, j < l.length →
    (updateFrom i0 w l).getD j 0 = if i0 + j = w then 0 else min 255 (l.getD j 0 + 1) := by
  induction l with
  | nil => intro i0 j w h; simp at h
  | cons x rest ih =>
    intro i0 j w h
    cases j with
    | zero => simp [updateFrom]
    | succ j2 =>
      have h2 : j2 < rest.length := by simp at h; omega
      have e := ih (i0 + 1) j2 w h2
      have harith : i0 + 1 + j2 = i0 + (j2 + 1) := by omega
      rw [harith] at e
      simpa [updateFrom] using e

/-- Claim C9. From all-zero counters, `updatePseudoLRU` resets the accessed way
to 0 and saturates every other counter upward by 1 (capped at 255), and
after every update in any nonempty in-range access sequence exactly one
way has counter 0 — so the `getPseudoLRU` scan for a zero counter always
finds an in-range candidate. -/
theorem C9_pseudoLRU_invariant (k : Nat) (ws : List Nat) (hne : ws ≠ []) (hlt : ∀ w ∈ ws, w < k) :
    (ws.foldl updatePseudoLRU (List.replicate k 0)).count 0 = 1
    ∧ getPseudoLRU (ws.foldl updatePseudoLRU (List.replicate k 0)) < k
    ∧ (∀ (row : List Nat) (w j : Nat), j < row.length →
        (updatePseudoLRU row w).getD j 0 = if j = w then 0 else min 255 (row.getD j 0 + 1)) := by
  have base := foldl_updatePseudoLRU ws (List.replicate k 0) hne (by simpa using hlt)
  refine ⟨base.1, ?_, ?_⟩
  · have hmem : 0 ∈ ws.foldl updatePseudoLRU (List.replicate k 0) := by
      apply List.count_pos_iff.mp
      omega
    have hfind := getPseudoLRU_lt _ hmem
    rw [base.2] at hfind
    simpa using hfind
  · intro row w j hj
    have e := updateFrom_getD row 0 j w hj
    simpa using e

/-- Witness for C9 at `k = 2`, access sequence `[0, 1]`. -/
theorem C9_pseudoLRU_witness :
    (([0, 1] : List Nat).foldl updatePseudoLRU (List.replicate 2 0)).count 0 = 1
    ∧ getPseudoLRU (([0, 1] : List Nat).foldl updatePseudoLRU (List.replicate 2 0)) < 2 :=
  ⟨(C9_pseudoLRU_invariant 2 [0, 1] (by decide) (by decide)).1,
   (C9_pseudoLRU_invariant 2 [0, 1] (by decide) (by decide)).2.1⟩

theorem ctzGo_two_pow : ∀ fuel b, b < fuel → ctzGo fuel (2 ^ b) = b := by
  intro fuel
  induction fuel with
  | zero => intro b h; omega
  | succ f ih =>
    intro b h
    cases b with
    | zero => simp [ctzGo]
    | succ b2 =>
      have hsplit : 2 ^ (b2 + 1) = 2 ^ b2 * 2 := by ring
      have hmod : 2 ^ (b2 + 1) % 2 = 0 := by omega
      have hdiv : 2 ^ (b2 + 1) / 2 = 2 ^ b2 := by omega
      simp [ctzGo, hmod, hdiv, ih b2 (by omega)]

theorem ctz_two_pow (b : Nat) (h : b < 32) : ctz (2 ^ b) = b :=
  ctzGo_two_pow 32 b h
/-- Claim C10. For powers of two, the decomposition computed by `accessCache`
matches the specified formulas: the set index is
`(address >> log2(blockSize)) & (numSets - 1)` and the tag is
`address & ~((numSets * blockSize) - 1)` with `~` the 32-bit complement
`(2^32 - 1) - x`. -/
theorem C10_address_decomposition (size block assoc victimSize b w address : Nat)
    (hblock : block = 2 ^ b) (hb : b < 32)
    (hsets : (Cache.build size block assoc victimSize).numSets = 2 ^ w) (hw : w < 32) :
    decodeIndex (Cache.build size block assoc victimSize) address
      = (address >>> Nat.log2 block) &&& ((Cache.build size block assoc victimSize).numSets - 1)
    ∧ decodeTag (Cache.build size block assoc victimSize) address
      = address &&& ((addrMod - 1) -
          ((Cache.build size block assoc victimSize).numSets * (Cache.build size block assoc victimSize).blockSize - 1)) := by
  have hns : (size / block) / assoc = 2 ^ w := hsets
  constructor
  · show (address >>> ctz block) &&& ((1 <<< ctz ((size / block) / assoc)) - 1)
      = (address >>> Nat.log2 block) &&& ((size / block) / assoc - 1)
    rw [hns, hblock, ctz_two_pow b hb, ctz_two_pow w hw, Nat.shiftLeft_eq, Nat.log2_two_pow, one_mul]
  · show address &&& ((addrMod - 1) - ((1 <<< (ctz ((size / block) / assoc) + ctz block)) - 1))
      = address &&& ((addrMod - 1) - ((size / block) / assoc * block - 1))
    rw [hns, hblock, ctz_two_pow b hb, ctz_two_pow w hw, Nat.shiftLeft_eq, one_mul, pow_add]

/-- Witness for C10 at the L1 demonstration configuration
`Cache(32768, 64, 8, 8)` (blockSize 64 = 2^6, numSets 64 = 2^6) and
address 12345. -/
theorem C10_address_decomposition_witness :
    decodeIndex (Cache.build 32768 64 8 8) 12345
      = (12345 >>> Nat.log2 64) &&& ((Cache.build 32768 64 8 8).numSets - 1)
    ∧ decodeTag (Cache.build 32768 64 8 8) 12345
      = 12345 &&& ((addrMod - 1) -
          ((Cache.build 32768 64 8 8).numSets * (Cache.build 32768 64 8 8).blockSize - 1)) :=
  C10_address_decomposition 32768 64 8 8 6 6 12345 (by norm_num) (by norm_num) (by decide) (by norm_num)
/-- Claim C4 amended: the three control paths of `accessCache`. A direct store
hit runs the prefetch step on the hit-updated state; a true miss runs it
on the filled state; an access satisfied by the victim buffer returns
hit immediately, with no prefetch step. -/
theorem C4_prefetch_paths (c : Cache) (n : Nat) (s : CacheState) (a : Nat) (w : Bool) :
    (storeHitB c s a = true →
      accessCache c (n + 1) s a w
        = (prefetchNextLine c n (hitUpdateState c s a w) a).map (fun t => (t, true)))
    ∧ (∀ q, storeHitB c s a = false →
        checkVictimCache s.victimCache (decodeTag c a) = (true, q) →
        accessCache c (n + 1) s a w
          = some (victimFillState c { s with victimCache := q } (decodeIndex c a) w, true))
    ∧ (∀ q, storeHitB c s a = false →
        checkVictimCache s.victimCache (decodeTag c a) = (false, q) →
        accessCache c (n + 1) s a w
          = (prefetchNextLine c n (missFillState c { s with victimCache := q } a w) a).map (fun t => (t, false))) := by
  refine ⟨?_, ?_, ?_⟩
  · intro h
    simp [accessCache, accessCacheAux, prefetchNextLine, h]
  · intro q h hq
    simp [accessCache, accessCacheAux, prefetchNextLine, h, hq]
  · intro q h hq
    simp [accessCache, accessCacheAux, prefetchNextLine, h, hq]

/-- Witness for C4's amended claim: the victim-buffer-hit case of
`C4_prefetch_paths` at the concrete fixture, where the access returns hit
with no prefetch. -/
theorem C4_prefetch_paths_witness :
    storeHitB cfgD sC4 0 = false
    ∧ accessCache cfgD 1 sC4 0 false
        = some (victimFillState cfgD { sC4 with victimCache := [⟨true, false, 0⟩] } (decodeIndex cfgD 0) false, true) :=
  ⟨by decide, (C4_prefetch_paths cfgD 0 sC4 0 false).2.1 [⟨true, false, 0⟩] (by decide) (by decide)⟩

theorem getD_predictWay_of_any (row : List CacheBlock) (tag : Nat)
    (h : row.any (fun b => b.valid && b.tag == tag) = true) :
    ((row.getD (predictWay row tag) invalidBlock).valid
      && (row.getD (predictWay row tag) invalidBlock).tag == tag) = true := by
  induction row with
  | nil => simp at h
  | cons x rest ih =>
    by_cases hx : (x.valid && x.tag == tag) = true
    · simp [predictWay, List.findIdx?_cons, hx]
    · have hxf : (fun b => b.valid && b.tag == tag) x = false := by
        simpa using hx
      have hr : rest.any (fun b => b.valid && b.tag == tag) = true := by
        simp [List.any_cons, hxf] at h
        simpa using h
      have hrec := ih hr
      have hsome : (rest.findIdx? (fun b => b.valid && b.tag == tag)).isSome = true := by
        rw [List.findIdx?_isSome]
        exact hr
      obtain ⟨j, hj⟩ := Option.isSome_iff_exists.mp hsome
      have hpw : predictWay (x :: rest) tag = j + 1 := by
        simp [predictWay, List.findIdx?_cons, hxf, hj]
      have hpwr : predictWay rest tag = j := by
        simp [predictWay, hj]
      rw [hpw, List.getD_cons_succ]
      rw [hpwr] at hrec
      exact hrec

theorem storeHit_of_resident (c : Cache) (s : CacheState) (a : Nat)
    (h : residentB c s a = true) : storeHitB c s a = true := by
  have := getD_predictWay_of_any (s.sets.getD (decodeIndex c a) []) (decodeTag c a) h
  simpa [storeHitB] using this

/-- Claim C6 amended: if address `a`'s line is (still) valid in its set with
matching stored tag — in particular when the first call's own prefetch
cascade has not displaced it — then an `accessCache(a)` call that
completes returns hit. -/
theorem C6_hit_stability_amended (c : Cache) (n : Nat) (s : CacheState) (a : Nat) (w : Bool)
    (p : CacheState × Bool) (hres : residentB c s a = true)
    (hcall : accessCache c n s a w = some p) : p.2 = true := by
  cases n with
  | zero => simp [accessCache] at hcall
  | succ m =>
    have hhit := storeHit_of_resident c s a hres
    simp [accessCache, accessCacheAux, hhit] at hcall
    obtain ⟨t, _, hp⟩ := hcall
    rw [← hp]

/-- Witness for C6's amended claim: with both address 0's and address 1's
lines resident, the access completes (its prefetch stops immediately)
and returns hit. -/
theorem C6_hit_stability_witness :
    residentB cfgB sC6res 0 = true
    ∧ ((⟨[[⟨true, false, 0⟩, invalidBlock], [⟨true, false, 0⟩, invalidBlock]],
        [[0, 2], [0, 1]], [], []⟩, true) : CacheState × Bool).2 = true :=
  ⟨by decide,
   C6_hit_stability_amended cfgB 1 sC6res 0 false
     (⟨[[⟨true, false, 0⟩, invalidBlock], [⟨true, false, 0⟩, invalidBlock]],
       [[0, 2], [0, 1]], [], []⟩, true) (by decide) (by decide)⟩
theorem land_addrMask (x : Nat) (h : x < addrMod) : x &&& (addrMod - 1) = x := by
  have hmod : x &&& (2 ^ 32 - 1) = x % 2 ^ 32 := Nat.and_pow_two_sub_one_eq_mod x 32
  have h32 : (2 : Nat) ^ 32 = addrMod := by norm_num [addrMod]
  rw [h32] at hmod
  rw [hmod]
  exact Nat.mod_eq_of_lt h

theorem cfgA_tagMask_eq : cfgA.tagMask = addrMod - 1 := by decide

theorem decodeIndex_cfgA (v : Nat) : decodeIndex cfgA v = 0 := by
  show (v >>> ctz cfgA.blockSize) &&& cfgA.setMask = 0
  have hm : cfgA.setMask = 0 := by decide
  rw [hm]
  exact Nat.and_zero _

theorem decodeTag_cfgA (v : Nat) (hv : v < addrMod) : decodeTag cfgA v = v := by
  show v &&& cfgA.tagMask = v
  rw [cfgA_tagMask_eq]
  exact land_addrMask v hv

theorem casc_storeHit (v : Nat) (hv : v < addrMod) : storeHitB cfgA (cascState v) v = false := by
  have hne : prevAddr v % tagMod ≠ v := by
    simp only [prevAddr, addrMod, tagMod]
    omega
  simp [storeHitB, cascState, decodeIndex_cfgA, decodeTag_cfgA v hv, predictWay,
    List.findIdx?_cons, List.findIdx?_nil, hne]

theorem casc_victimScan (v : Nat) :
    checkVictimCache (cascState v).victimCache v = (false, (cascState v).victimCache) := by
  have hne : prevAddr (prevAddr v) % tagMod ≠ v := by
    simp only [prevAddr, addrMod, tagMod]
    omega
  simp [checkVictimCache, cascState, checkVictimCacheGo, hne]

theorem prevAddr_round (v : Nat) (hv : v < addrMod) : prevAddr ((v + 1) % addrMod) = v := by
  simp only [addrMod] at hv
  simp only [prevAddr, addrMod]
  omega

theorem casc_missFill (v : Nat) (hv : v < addrMod) :
    missFillState cfgA (cascState v) v false = cascState ((v + 1) % addrMod) := by
  have hprev := prevAddr_round v hv
  have hg : getPseudoLRU [0] = 0 := rfl
  have hvs : cfgA.victimCacheSize = 1 := rfl
  simp [missFillState, cascState, decodeIndex_cfgA, decodeTag_cfgA v hv, hg, hvs,
    setBlock, updateLRUState, updatePseudoLRU, updateFrom, addToVictimCache, writeBack, hprev]

theorem casc_resident (v : Nat) (hv : v < addrMod) :
    residentB cfgA (cascState ((v + 1) % addrMod)) ((v + 1) % addrMod) = false := by
  have hnext : (v + 1) % addrMod < addrMod := Nat.mod_lt _ (by norm_num [addrMod])
  have hprev := prevAddr_round v hv
  have hne : prevAddr ((v + 1) % addrMod) % tagMod ≠ (v + 1) % addrMod := by
    rw [hprev]
    simp only [addrMod, tagMod]
    omega
  simp [residentB, cascState, decodeIndex_cfgA, decodeTag_cfgA _ hnext, hne]

theorem bool_if_neg {α : Sort u} {b : Bool} (h : b = false) (x y : α) :
    (if b then x else y) = y := by
  subst h
  rfl

theorem victim_update_self (s : CacheState) :
    ({ s with victimCache := s.victimCache } : CacheState) = s := rfl

theorem cascAuxStep (v : Nat) (hv : v < addrMod)
    (recurse : CacheState → Nat → Bool → Option (CacheState × Bool)) :
    accessCacheAux cfgA recurse (cascState v) v false
      = (recurse (cascState ((v + 1) % addrMod)) ((v + 1) % addrMod) false).map
          (fun p => (p.1, false)) := by
  have h1 := casc_storeHit v hv
  have h2 := casc_victimScan v
  have h3 := casc_missFill v hv
  have h4 := casc_resident v hv
  have hb : cfgA.blockSize = 1 := rfl
  unfold accessCacheAux
  rw [bool_if_neg h1, decodeTag_cfgA v hv, h2]
  simp only [victim_update_self, h3]
  rw [bool_if_neg rfl]
  unfold prefetchNextLineAux
  simp only [hb, h4, Bool.false_eq_true, if_false, Option.map_map]
  rfl
theorem cascNone : ∀ m v, v < addrMod → accessCache cfgA m (cascState v) v false = none := by
  intro m
  induction m with
  | zero => intro v hv; rfl
  | succ k ih =>
    intro v hv
    have hstep : accessCache cfgA (k + 1) (cascState v) v false
        = (accessCache cfgA k (cascState ((v + 1) % addrMod)) ((v + 1) % addrMod) false).map
            (fun p => (p.1, false)) :=
      cascAuxStep v hv (fun s2 a2 w2 => accessCache cfgA k s2 a2 w2)
    rw [hstep, ih ((v + 1) % addrMod) (Nat.mod_lt _ (by norm_num [addrMod]))]
    rfl

/-- Claim C3. The claim says every `accessCache` call terminates. It does not:
on the freshly constructed `Cache(1,1,1,1)` the very first access (to
address 0, a read) enters the prefetch cascade, which advances one block
per recursive call forever — the next line is never resident and never
found in the victim buffer, even as the address wraps around the 32-bit
ring. In the fuel model: no fuel bound suffices for the call to return. -/
theorem C3_prefetch_cascade_diverges :
    ∀ n, accessCache cfgA n (initState cfgA) 0 false = none := by
  intro n
  cases n with
  | zero => rfl
  | succ m =>
    have h1 : accessCache cfgA (m + 1) (initState cfgA) 0 false
        = ((accessCache cfgA m tau1 1 false).map Prod.fst).map (fun s2 => (s2, false)) := rfl
    cases m with
    | zero => rw [h1]; rfl
    | succ k =>
      have h2 : accessCache cfgA (k + 1) tau1 1 false
          = ((accessCache cfgA k (cascState 2) 2 false).map Prod.fst).map (fun s2 => (s2, false)) := rfl
      rw [h1, h2, cascNone k 2 (by norm_num [addrMod])]
      rfl
theorem mem_of_mem_set {α : Type u} : ∀ (l : List α) (i : Nat) (a x : α), x ∈ l.set i a → x ∈ l ∨ x = a := by
  intro l
  induction l with
  | nil => intro i a x h; simp at h
  | cons y rest ih =>
    intro i a x h
    cases i with
    | zero =>
      rcases List.mem_cons.mp h with h2 | h2
      · right; exact h2
      · left; exact List.mem_cons_of_mem y h2
    | succ i2 =>
      rcases List.mem_cons.mp h with h2 | h2
      · left; simp [h2]
      · rcases ih i2 a x h2 with h3 | h3
        · left; exact List.mem_cons_of_mem y h3
        · right; exact h3

theorem drop_one_set_zero {α : Type u} (l : List α) (b : α) : (l.set 0 b).drop 1 = l.drop 1 := by
  cases l <;> rfl

theorem rowInv_getD (s : CacheState) (h : ∀ row ∈ s.sets, RowInv row) (i : Nat) :
    RowInv (s.sets.getD i []) := by
  by_cases hi : i < s.sets.length
  · rw [List.getD_eq_getElem s.sets [] hi]
    exact h _ (List.getElem_mem hi)
  · rw [List.getD_eq_default s.sets [] (by omega)]
    intro b hb
    simp at hb

theorem lruInv_getD (s : CacheState) (h : ∀ lrow ∈ s.pseudoLRU, LRUInv lrow) (i : Nat) :
    LRUInv (s.pseudoLRU.getD i []) := by
  by_cases hi : i < s.pseudoLRU.length
  · rw [List.getD_eq_getElem s.pseudoLRU [] hi]
    exact h _ (List.getElem_mem hi)
  · rw [List.getD_eq_default s.pseudoLRU [] (by omega)]
    rfl

theorem rowInv_set_zero (row : List CacheBlock) (h : RowInv row) (b : CacheBlock) :
    RowInv (row.set 0 b) := by
  intro x hx
  rw [drop_one_set_zero] at hx
  exact h x hx

theorem findIdx?_none_of_invalid (tag : Nat) :
    ∀ rest : List CacheBlock, (∀ b ∈ rest, b.valid = false) →
      rest.findIdx? (fun b => b.valid && b.tag == tag) = none := by
  intro rest
  induction rest with
  | nil => intro _; rfl
  | cons x r2 ih =>
    intro h
    have hx : x.valid = false := h x (List.mem_cons_self x r2)
    have hr := ih (fun b hb => h b (List.mem_cons_of_mem x hb))
    simp [List.findIdx?_cons, hx, hr]

theorem predictWay_zero (row : List CacheBlock) (tag : Nat) (h : RowInv row) :
    predictWay row tag = 0 := by
  cases row with
  | nil => rfl
  | cons x rest =>
    have hr : rest.findIdx? (fun b => b.valid && b.tag == tag) = none :=
      findIdx?_none_of_invalid tag rest (by intro b hb; exact h b hb)
    by_cases hx : (x.valid && x.tag == tag) = true
    · simp [predictWay, List.findIdx?_cons, hx]
    · have hxf : (fun b => b.valid && b.tag == tag) x = false := by simpa using hx
      simp [predictWay, List.findIdx?_cons, hxf, hr]

theorem getPseudoLRU_zero (lrow : List Nat) (h : LRUInv lrow) : getPseudoLRU lrow = 0 := by
  cases lrow with
  | nil => rfl
  | cons x rest =>
    have hx : x = 0 := h
    simp [getPseudoLRU, List.findIdx_cons, hx]

theorem lruInv_update_zero (lrow : List Nat) : LRUInv (updatePseudoLRU lrow 0) := by
  cases lrow with
  | nil => rfl
  | cons x rest => rfl

theorem inv_setBlock_zero (s : CacheState) (i : Nat) (b : CacheBlock) (h : Inv s) :
    Inv (setBlock s i 0 b) := by
  obtain ⟨hrow, hlru⟩ := h
  refine ⟨?_, hlru⟩
  intro row2 hmem
  rcases mem_of_mem_set _ _ _ _ hmem with h2 | h2
  · exact hrow row2 h2
  · rw [h2]
    exact rowInv_set_zero _ (rowInv_getD s hrow i) b

theorem inv_updateLRU_zero (s : CacheState) (i : Nat) (h : Inv s) :
    Inv (updateLRUState s i 0) := by
  obtain ⟨hrow, hlru⟩ := h
  refine ⟨hrow, ?_⟩
  intro lrow2 hmem
  rcases mem_of_mem_set _ _ _ _ hmem with h2 | h2
  · exact hlru lrow2 h2
  · rw [h2]
    exact lruInv_update_zero _

theorem inv_hitUpdate (c : Cache) (s : CacheState) (a : Nat) (w : Bool) (h : Inv s) :
    Inv (hitUpdateState c s a w) := by
  have hpw : predictWay (s.sets.getD (decodeIndex c a) []) (decodeTag c a) = 0 :=
    predictWay_zero _ _ (rowInv_getD s h.1 _)
  simp only [hitUpdateState]
  rw [hpw]
  cases w with
  | false => exact inv_updateLRU_zero _ _ h
  | true => exact inv_updateLRU_zero _ _ (inv_setBlock_zero _ _ _ h)

theorem inv_insertBlock (c : Cache) (s : CacheState) (i : Nat) (b : CacheBlock) (w : Bool) (h : Inv s) :
    Inv (insertBlockToCache c s i b w) := by
  have hrw : getPseudoLRU (s.pseudoLRU.getD i []) = 0 :=
    getPseudoLRU_zero _ (lruInv_getD s h.2 i)
  unfold insertBlockToCache
  rw [hrw]
  exact inv_updateLRU_zero _ _ (inv_setBlock_zero _ _ _ h)

theorem inv_victimFill (c : Cache) (s : CacheState) (i : Nat) (w : Bool) (h : Inv s) :
    Inv (victimFillState c s i w) := by
  unfold victimFillState
  exact inv_insertBlock c s i _ w h

theorem inv_writeBack (s : CacheState) (i : Nat) (h : Inv s) : Inv (writeBack s i 0) := by
  unfold writeBack
  exact inv_setBlock_zero s i _ h

theorem inv_missFill (c : Cache) (s : CacheState) (a : Nat) (w : Bool) (h : Inv s) :
    Inv (missFillState c s a w) := by
  have hrw : getPseudoLRU (s.pseudoLRU.getD (decodeIndex c a) []) = 0 :=
    getPseudoLRU_zero _ (lruInv_getD s h.2 _)
  simp only [missFillState]
  rw [hrw]
  refine inv_updateLRU_zero _ _ (inv_setBlock_zero _ _ _ ?_)
  split
  · have h2 : Inv (writeBack s (decodeIndex c a) 0) := inv_writeBack s _ h
    split
    · exact h2
    · exact h2
  · split
    · exact h
    · exact h

theorem inv_prefetchAux (c : Cache) (recurse : CacheState → Nat → Bool → Option (CacheState × Bool))
    (s : CacheState) (a : Nat)
    (hrec : ∀ s2 a2 w2 p2, Inv s2 → recurse s2 a2 w2 = some p2 → Inv p2.1)
    (h : Inv s) :
    ∀ t, prefetchNextLineAux c recurse s a = some t → Inv t := by
  intro t ht
  unfold prefetchNextLineAux at ht
  dsimp only [] at ht
  split at ht
  · injection ht with ht2
    rw [← ht2]
    exact h
  · rcases Option.map_eq_some'.mp ht with ⟨p2, hp2, hpt⟩
    rw [← hpt]
    exact hrec _ _ _ _ h hp2

theorem inv_accessAux (c : Cache) (recurse : CacheState → Nat → Bool → Option (CacheState × Bool))
    (s : CacheState) (a : Nat) (w : Bool) (p : CacheState × Bool)
    (hrec : ∀ s2 a2 w2 p2, Inv s2 → recurse s2 a2 w2 = some p2 → Inv p2.1)
    (h : Inv s) (hcall : accessCacheAux c recurse s a w = some p) : Inv p.1 := by
  unfold accessCacheAux at hcall
  dsimp only [] at hcall
  split at hcall
  · rcases Option.map_eq_some'.mp hcall with ⟨t, ht, hp⟩
    have hinv := inv_prefetchAux c recurse _ a hrec (inv_hitUpdate c s a w h) t ht
    rw [← hp]
    exact hinv
  · split at hcall
    · injection hcall with h2
      rw [← h2]
      exact inv_victimFill c _ _ w h
    · rcases Option.map_eq_some'.mp hcall with ⟨t, ht, hp⟩
      rw [← hp]
      refine inv_prefetchAux c recurse _ a hrec ?_ t ht
      exact inv_missFill c _ a w h

theorem inv_access (c : Cache) :
    ∀ (n : Nat) (s : CacheState) (a : Nat) (w : Bool) (p : CacheState × Bool),
      Inv s → accessCache c n s a w = some p → Inv p.1 := by
  intro n
  induction n with
  | zero => intro s a w p _ hcall; simp [accessCache] at hcall
  | succ k ih =>
    intro s a w p h hcall
    exact inv_accessAux c (fun s2 a2 w2 => accessCache c k s2 a2 w2) s a w p
      (fun s2 a2 w2 p2 h2 hc2 => ih s2 a2 w2 p2 h2 hc2) h hcall

theorem inv_init (c : Cache) : Inv (initState c) := by
  constructor
  · intro row hrow
    have hr := List.eq_of_mem_replicate hrow
    subst hr
    intro b hb
    have hmem := List.mem_of_mem_drop hb
    have hbe := List.eq_of_mem_replicate hmem
    subst hbe
    rfl
  · intro lrow hl
    have hr := List.eq_of_mem_replicate hl
    subst hr
    cases hw : c.ways with
    | zero => rfl
    | succ k => rfl

theorem inv_reach (c : Cache) (s : CacheState) (h : Reach c s) : Inv s := by
  induction h with
  | init => exact inv_init c
  | step s n a w p hr hcall ih => exact inv_access c n s a w p ih hcall

theorem valid_only_zero (row : List CacheBlock) (h : RowInv row) (i : Nat) (hi : 1 ≤ i) :
    (row.getD i invalidBlock).valid = false := by
  by_cases hlen : i < row.length
  · rw [List.getD_eq_getElem row invalidBlock hlen]
    have hlen2 : i - 1 < (row.drop 1).length := by
      simp
      omega
    have hmem := List.getElem_mem hlen2
    have hval := h _ hmem
    have he2 := @List.getElem_drop CacheBlock row 1 (i - 1) hlen2
    rw [he2] at hval
    have hidx : 1 + (i - 1) = i := by omega
    simp only [hidx] at hval
    exact hval
  · rw [List.getD_eq_default _ _ (by omega)]
    rfl

theorem uniq_of_inv (s : CacheState) (h : Inv s) : Uniq s := by
  intro row hrow i j hij hvi hvj
  have hr : RowInv row := h.1 row hrow
  have hi0 : i = 0 := by
    by_contra hne
    rw [valid_only_zero row hr i (by omega)] at hvi
    exact absurd hvi (by simp)
  have hj0 : j = 0 := by
    by_contra hne
    rw [valid_only_zero row hr j (by omega)] at hvj
    exact absurd hvj (by simp)
  exact absurd (hi0.trans hj0.symm) hij

/-- Claim C5. In every state reachable from the all-invalid constructor state
by completed `accessCache` calls, no two distinct valid ways of one set
hold the same tag. In fact the code maintains a much stronger invariant:
`getPseudoLRU` always selects way 0 in reachable states (the counter it
resets is the one it will pick again), so no way other than way 0 ever
becomes valid, and tag uniqueness follows. -/
theorem C5_tag_uniqueness (c : Cache) (s : CacheState) (h : Reach c s) : Uniq s :=
  uniq_of_inv s (inv_reach c s h)

/-- Witness for C5 at the constructor state of `cfgB`. -/
theorem C5_tag_uniqueness_witness : Uniq (initState cfgB) :=
  C5_tag_uniqueness cfgB (initState cfgB) Reach.init
end MLCache
